import Mathlib

set_option maxRecDepth 40000

/-!
Verification of the cyclic-group layer of the xx-labs crypto repository.

The development shallowly embeds the Go sources:
  * `cyclic/int.go`   — the group-tagged big integer (`Cyclic.Int`);
  * `cyclic/buffer.go`— the batch buffer (`CyclicRef.IntBuffer`), modelled at
    the heap level because its contract is about storage sharing;
  * the `Group` type (its implementation file is not part of the sources at
    hand, only its tests; its operations are modelled from the spec and are
    marked `Modelled from the spec:` in their doc comments).

Go `large.Int` (a wrapper of `math/big.Int`) is modelled as a mathematical
integer `ℤ`; its big-endian magnitude byte encoding (`Bytes()`) is
`natToBytesBE ·.natAbs`.  Machine `uint64` fields are modelled as `Nat`
together with explicit `< 2 ^ 64` bounds where they matter.
-/

/-- Big-endian minimal byte encoding of a natural number, fuel-driven so the
kernel can evaluate it.  `[]` encodes `0`, matching Go `big.Int.Bytes`. -/
def natToBytesBEAux : Nat → Nat → List Nat
  | 0, _ => []
  | fuel + 1, n => if n = 0 then [] else natToBytesBEAux fuel (n / 256) ++ [n % 256]

/-- Big-endian minimal byte encoding of a natural number (Go `big.Int.Bytes`). -/
def natToBytesBE (n : Nat) : List Nat := natToBytesBEAux n n

/-- Interpret a byte list as a big-endian natural number
(Go `big.NewInt(0).SetBytes`). -/
def natFromBytesBE (l : List Nat) : Nat := l.foldl (fun acc b => acc * 256 + b) 0

/-- The 8-byte little-endian encoding of a `uint64`
(Go `binary.LittleEndian.PutUint64`). -/
def u64ToBytesLE (n : Nat) : List Nat :=
  [n % 256, n / 256 % 256, n / 256 ^ 2 % 256, n / 256 ^ 3 % 256,
   n / 256 ^ 4 % 256, n / 256 ^ 5 % 256, n / 256 ^ 6 % 256, n / 256 ^ 7 % 256]

/-- Decode the first 8 bytes of a list as a little-endian `uint64`
(Go `binary.LittleEndian.Uint64`). -/
def u64FromBytesLE (l : List Nat) : Nat := (l.take 8).foldr (fun b acc => acc * 256 + b) 0

/-- The 8-byte big-endian encoding of a `uint64`
(Go `binary.BigEndian.PutUint64`). -/
def u64ToBytesBE (n : Nat) : List Nat :=
  [n / 256 ^ 7 % 256, n / 256 ^ 6 % 256, n / 256 ^ 5 % 256, n / 256 ^ 4 % 256,
   n / 256 ^ 3 % 256, n / 256 ^ 2 % 256, n / 256 % 256, n % 256]

/-- Decode the first 8 bytes of a list as a big-endian `uint64`
(Go `binary.BigEndian.Uint64`). -/
def u64FromBytesBE (l : List Nat) : Nat := (l.take 8).foldl (fun acc b => acc * 256 + b) 0




/-!  SHA-256 over byte lists, used for the group fingerprint.  Validated
against the FIPS 180-4 test vectors during development.  -/

namespace SHA256

def add32 (a b : Nat) : Nat := (a + b) % 4294967296

def spin32 (x n : Nat) : Nat := ((x >>> n) ||| (x <<< (32 - n))) % 4294967296

def bigS0 (x : Nat) : Nat := spin32 x 2 ^^^ spin32 x 13 ^^^ spin32 x 22
def bigS1 (x : Nat) : Nat := spin32 x 6 ^^^ spin32 x 11 ^^^ spin32 x 25
def smallS0 (x : Nat) : Nat := spin32 x 7 ^^^ spin32 x 18 ^^^ (x >>> 3)
def smallS1 (x : Nat) : Nat := spin32 x 17 ^^^ spin32 x 19 ^^^ (x >>> 10)

def chf (x y z : Nat) : Nat := (x &&& y) ^^^ ((x ^^^ 4294967295) &&& z)
def majf (x y z : Nat) : Nat := (x &&& y) ^^^ (x &&& z) ^^^ (y &&& z)

def K : List Nat :=
  [1116352408, 1899447441, 3049323471, 3921009573,
   961987163, 1508970993, 2453635748, 2870763221,
   3624381080, 310598401, 607225278, 1426881987,
   1925078388, 2162078206, 2614888103, 3248222580,
   3835390401, 4022224774, 264347078, 604807628,
   770255983, 1249150122, 1555081692, 1996064986,
   2554220882, 2821834349, 2952996808, 3210313671,
   3336571891, 3584528711, 113926993, 338241895,
   666307205, 773529912, 1294757372, 1396182291,
   1695183700, 1986661051, 2177026350, 2456956037,
   2730485921, 2820302411, 3259730800, 3345764771,
   3516065817, 3600352804, 4094571909, 275423344,
   430227734, 506948616, 659060556, 883997877,
   958139571, 1322822218, 1537002063, 1747873779,
   1955562222, 2024104815, 2227730452, 2361852424,
   2428436474, 2756734187, 3204031479, 3329325298]

def initH : List Nat :=
  [1779033703, 3144134277, 1013904242, 2773480762,
   1359893119, 2600822924, 528734635, 1541459225]

structure St where
  a : Nat
  b : Nat
  c : Nat
  d : Nat
  e : Nat
  f : Nat
  g : Nat
  h : Nat

def step (s : St) (kw : Nat × Nat) : St :=
  let t1 := add32 s.h (add32 (bigS1 s.e) (add32 (chf s.e s.f s.g) (add32 kw.1 kw.2)))
  let t2 := add32 (bigS0 s.a) (majf s.a s.b s.c)
  ⟨add32 t1 t2, s.a, s.b, s.c, add32 s.d t1, s.e, s.f, s.g⟩

def rounds : St → List (Nat × Nat) → St
  | s, [] => s
  | s, kw :: rest => rounds (step s kw) rest

def scheduleAux : List Nat → Nat → List Nat
  | w, 0 => w
  | w, n + 1 =>
    let l := w.length
    let nw := add32 (add32 (smallS1 (w.getD (l - 2) 0)) (w.getD (l - 7) 0))
                    (add32 (smallS0 (w.getD (l - 15) 0)) (w.getD (l - 16) 0))
    scheduleAux (w ++ [nw]) n

def bytesToWords : List Nat → List Nat
  | b0 :: b1 :: b2 :: b3 :: rest => (((b0 * 256 + b1) * 256 + b2) * 256 + b3) :: bytesToWords rest
  | _ => []

def compress (hs : List Nat) (block : List Nat) : List Nat :=
  let w := scheduleAux (bytesToWords block) 48
  let s0 : St := ⟨hs.getD 0 0, hs.getD 1 0, hs.getD 2 0, hs.getD 3 0,
                  hs.getD 4 0, hs.getD 5 0, hs.getD 6 0, hs.getD 7 0⟩
  let s := rounds s0 (K.zip w)
  [add32 s0.a s.a, add32 s0.b s.b, add32 s0.c s.c, add32 s0.d s.d,
   add32 s0.e s.e, add32 s0.f s.f, add32 s0.g s.g, add32 s0.h s.h]

def pad (msg : List Nat) : List Nat :=
  let L := msg.length
  msg ++ 128 :: List.replicate ((119 - L % 64) % 64) 0 ++ u64ToBytesBE (L * 8)

def processAux : Nat → List Nat → List Nat → List Nat
  | 0, hs, _ => hs
  | n + 1, hs, bytes => processAux n (compress hs (bytes.take 64)) (bytes.drop 64)

def wordToBytesBE (w : Nat) : List Nat := [w / 16777216 % 256, w / 65536 % 256, w / 256 % 256, w % 256]

def sha256 (msg : List Nat) : List Nat :=
  let padded := pad msg
  (processAux (padded.length / 64) initH padded).foldr (fun w acc => wordToBytesBE w ++ acc) []

end SHA256

/-!  Model of the `large` package (a wrapper of Go `math/big.Int`): a value is
a mathematical integer; `Bytes()` returns the big-endian magnitude. -/

namespace Large

/-- Go `big.Int.Cmp`: three-way comparison returning -1, 0 or 1
(`large.Int.Cmp` delegates to it). -/
def cmp (a b : ℤ) : ℤ := if a < b then -1 else if a = b then 0 else 1

/-- Go `big.Int.Bytes` (used by `large.Int.Bytes`): the absolute value as a
big-endian byte slice, empty for zero. -/
def bytes (a : ℤ) : List Nat := natToBytesBE a.natAbs

/-- `large.NewIntFromBytes`: interprets a byte slice as an unsigned big-endian
integer. -/
def newIntFromBytes (l : List Nat) : ℤ := (natFromBytesBE l : ℤ)

/-- Modelled from the spec: `large.Int.ModInverse` is in the missing part of
the sources.  "`ModInverse(a, m)`: returns the modular inverse of `a` mod `m`,
or a failure signal (not a valid integer) when `gcd(a, m) != 1`, i.e. no
inverse exists."  The inverse in `[0, m)` is unique when it exists, so it is
found by bounded search. -/
def ModInverse (a m : Nat) : Option Nat :=
  (List.range m).find? (fun d => a * d % m == 1 % m)

end Large

namespace Cyclic

/-- The `cyclic.Int` struct of `cyclic/int.go`: a `large.Int` value tagged with
a `uint64` group fingerprint. -/
structure Int where
  value : ℤ
  fingerprint : Nat

/-- `cyclic.Int.GetGroupFingerprint`. -/
def Int.GetGroupFingerprint (z : Int) : Nat := z.fingerprint

/-- `cyclic.Int.Bytes`. -/
def Int.Bytes (z : Int) : List Nat := Large.bytes z.value

/-- `cyclic.Int.Cmp` (`cyclic/int.go` lines 83-91): returns -2 if the
fingerprints differ, else the value comparison. -/
def Int.Cmp (z x : Int) : ℤ :=
  if z.fingerprint ≠ x.fingerprint then -2 else Large.cmp z.value x.value

/-- `cyclic.Int.BinaryEncode`: 8 bytes of fingerprint
(`binary.LittleEndian.PutUint64`) followed by the big-endian value bytes. -/
def Int.BinaryEncode (z : Int) : List Nat :=
  u64ToBytesLE z.fingerprint ++ z.Bytes

/-- The error value of `cyclic.Int.BinaryDecode`
(`errors.Errorf("length of buffer %d != %d expected", len(b), 8)`). -/
structure LengthMismatch where
  got : Nat
  expected : Nat

/-- `cyclic.Int.BinaryDecode` on receiver `z`: returns the error (if any)
and the state of the receiver after the call. -/
def Int.BinaryDecode (z : Int) (b : List Nat) : Option LengthMismatch × Int :=
  if b.length < 8 then (some ⟨b.length, 8⟩, z)
  else (none, ⟨Large.newIntFromBytes (b.drop 8), u64FromBytesLE (b.take 8)⟩)

/-- `cyclic.Int.GobEncode` writes the anonymous struct `{F, V []byte}` with
`F` the 8-byte big-endian fingerprint and `V` the value bytes; the gob wire
serialization of that struct (Go standard library, faithfully invertible) is
modelled as the pair itself. -/
def Int.GobEncode (z : Int) : List Nat × List Nat :=
  (u64ToBytesBE z.fingerprint, z.Bytes)

/-- `cyclic.Int.GobDecode` on the successfully gob-decoded struct `{F, V}`:
the value is rebuilt with `large.NewIntFromBytes(s.V)` and the fingerprint
with `binary.BigEndian.Uint64(s.F)`. -/
def Int.GobDecode (s : List Nat × List Nat) : Int :=
  ⟨Large.newIntFromBytes s.2, u64FromBytesBE s.1⟩

/-- The `intData` struct of `cyclic/int.go` used for JSON marshalling. -/
structure intData where
  Value : ℤ
  Fingerprint : Nat

/-- `cyclic.Int.UnmarshalJSON` on receiver `z`: `json.Unmarshal` (Go standard
library, modelled as an arbitrary parse function `jsonParse` returning `none`
exactly on invalid payloads) fills a fresh `intData`; only on success are the
receiver's fields assigned.  Returns the error presence and the state of the
receiver after the call. -/
def Int.UnmarshalJSON (jsonParse : List Nat → Option intData) (z : Int)
    (b : List Nat) : Option Unit × Int :=
  match jsonParse b with
  | none => (some (), z)
  | some data => (none, ⟨data.Value, data.Fingerprint⟩)

end Cyclic

namespace Cyclic

/-- Modelled from the spec: the `GroupFingerprintSize` constant of the missing
`Group` implementation file (only referenced from `group_test.go`): the digest
is truncated "to a fixed number of bytes interpreted as an unsigned integer",
a "64-bit fingerprint", i.e. 8 bytes. -/
def GroupFingerprintSize : Nat := 8

/-- Modelled from the spec: the `Group` struct (its implementation file is
missing from the sources; only `group_test.go` is present).  "Attributes:
prime `p`, generator `g`, `p-1`, `(p-1)/2`, a random-source handle, and a
64-bit fingerprint." -/
structure Group where
  prime : Nat
  gen : Nat
  psub1 : Nat
  psub1half : Nat
  fingerprint : Nat

/-- Modelled from the spec: the fingerprint is "derived by hashing the
big-endian byte encodings of `p` and `g` and truncating the hash digest to a
fixed number of bytes interpreted as an unsigned integer"
(`sha256(p.Bytes() || g.Bytes())`, as `TestGetFingerprint` spells out). -/
def fingerprintOf (p g : Nat) : Nat :=
  natFromBytesBE ((SHA256.sha256 (natToBytesBE p ++ natToBytesBE g)).take GroupFingerprintSize)

/-- Modelled from the spec: `NewGroup` is "constructed once from `(p, g)`;
immutable thereafter except for the cached derived values". -/
def NewGroup (p g : Nat) : Group :=
  ⟨p, g, p - 1, (p - 1) / 2, fingerprintOf p g⟩

/-- `Group.GetFingerprint` returns the cached fingerprint. -/
def Group.GetFingerprint (g : Group) : Nat := g.fingerprint

/-- Modelled from the spec: "`Inside(largeInt)`: pure predicate,
`1 <= value < p`". -/
def Group.Inside (g : Group) (v : ℤ) : Bool :=
  decide (1 ≤ v) && decide (v < (g.prime : ℤ))

/-- Modelled from the spec: "`Random(z)`: draws a cryptographically secure
uniformly random element in `[2, p-2]` ... Fatal on an underlying
random-source read failure."  A read of the random source is modelled as
`Option Nat` (`none` = read failure, which is fatal and yields no element);
a successful draw `n` is mapped onto `[2, p-2]`. -/
def Group.Random (g : Group) (draw : Option Nat) : Option Nat :=
  match draw with
  | none => none
  | some n => some (2 + n % (g.prime - 3))

/-- Modelled from the spec: "`Exp(base, exponent, z)`:
`z = base^exponent mod p`". -/
def Group.Exp (g : Group) (base exponent : Nat) : Nat :=
  base ^ exponent % g.prime

/-- Modelled from the spec: "`RootCoprime(x, y, z)`: given `x = a^y mod p`
where `y` is coprime to `p-1`, recovers `a` into `z` by raising `x` to the
modular inverse of `y` mod `p-1`". -/
def Group.RootCoprime (g : Group) (x y : Nat) : Nat :=
  x ^ (Large.ModInverse y g.psub1).getD 0 % g.prime

/-- Modelled from the spec: the call-level view of `RootCoprime` on its three
`cyclic.Int` arguments — the result is written "into `z`; returns `z`; must
not mutate `x` or `y`".  The returned triple is the state of `(x, y, z)`
after the call. -/
def Group.RootCoprimeCall (g : Group) (x y z : Int) : Int × Int × Int :=
  (x, y, ⟨(g.RootCoprime x.value.natAbs y.value.natAbs : ℤ), z.fingerprint⟩)

end Cyclic

/-!  Heap-level model of the `cyclic` package, used for the claims about
storage sharing (`cyclic/buffer.go` and `cyclic.Int.GetLargeInt`).  The
backing array of `large.Int` cells is an explicit store (a list of integer
values); a Go pointer `*large.Int` is an index into it, and a Go slice
`[]large.Int` is a base index plus a length.  -/

namespace CyclicRef

/-- The heap of `large.Int` cells. -/
abbrev Store : Type := List ℤ

/-- Reading the cell a `*large.Int` points to. -/
def Store.read (s : Store) (r : Nat) : ℤ := List.getD s r 0

/-- Writing through a `*large.Int` (any in-place mutation of the pointee). -/
def Store.write (s : Store) (r : Nat) (v : ℤ) : Store := List.set s r v

/-- Pointer-level view of `cyclic.Int`: the `value` field is a `*large.Int`,
i.e. a reference into the store. -/
structure Int where
  ref : Nat
  fingerprint : Nat

/-- The `cyclic.IntBuffer` struct of `cyclic/buffer.go`: `values []large.Int`
(a slice of the backing array: base index and length) plus one shared
fingerprint. -/
structure IntBuffer where
  base : Nat
  len : Nat
  fingerprint : Nat

/-- `IntBuffer.Get` (`cyclic/buffer.go` lines 24-27):
`&Int{&ib.values[index], ib.fingerprint}` — a view whose value pointer is the
cell `index` of the buffer's slice, not a copy. -/
def IntBuffer.Get (ib : IntBuffer) (index : Nat) : Int :=
  ⟨ib.base + index, ib.fingerprint⟩

/-- `IntBuffer.GetSubBuffer` (`cyclic/buffer.go` lines 29-34):
`&IntBuffer{values: ib.values[begin:end], fingerprint: ib.fingerprint}` — the
sub-slice shares the backing array, starting `begin` cells into the parent. -/
def IntBuffer.GetSubBuffer (ib : IntBuffer) (begin stop : Nat) : IntBuffer :=
  ⟨ib.base + begin, stop - begin, ib.fingerprint⟩

/-- Element `index` of a buffer, as read from the store. -/
def IntBuffer.readAt (s : Store) (ib : IntBuffer) (index : Nat) : ℤ :=
  s.read (ib.base + index)

/-- `cyclic.Int.GetLargeInt` (`cyclic/int.go` lines 37-45):
`r := large.NewInt(0); r.Set(z.value); return r` — allocates a fresh cell
holding a copy of the pointee and returns a reference to it.  The result is
the extended store and the returned reference. -/
def Int.GetLargeInt (s : Store) (z : Int) : Store × Nat :=
  (s ++ [s.read z.ref], s.length)

end CyclicRef

/-!  Helper theorems.  -/

theorem natFromBytesBE_append (xs : List Nat) (b : Nat) :
    natFromBytesBE (xs ++ [b]) = natFromBytesBE xs * 256 + b := by
  unfold natFromBytesBE
  rw [List.foldl_append]
  rfl

theorem natFromBytesBE_toBytesAux (fuel : Nat) :
    ∀ n, n ≤ fuel → natFromBytesBE (natToBytesBEAux fuel n) = n := by
  induction fuel with
  | zero =>
    intro n hn
    have : n = 0 := Nat.le_zero.mp hn
    simp [this, natToBytesBEAux, natFromBytesBE]
  | succ fuel ih =>
    intro n hn
    by_cases h0 : n = 0
    · simp [h0, natToBytesBEAux, natFromBytesBE]
    · have hlt : n / 256 < n := Nat.div_lt_self (Nat.pos_of_ne_zero h0) (by omega)
      have hle : n / 256 ≤ fuel := by omega
      rw [natToBytesBEAux, if_neg h0, natFromBytesBE_append, ih (n / 256) hle]
      omega

/-- Round trip: decoding the big-endian encoding of `n` gives back `n`. -/
theorem natFromBytesBE_natToBytesBE (n : Nat) :
    natFromBytesBE (natToBytesBE n) = n :=
  natFromBytesBE_toBytesAux n n (Nat.le_refl n)

theorem u64ToBytesLE_length (n : Nat) : (u64ToBytesLE n).length = 8 := rfl

theorem u64FromBytesLE_u64ToBytesLE (n : Nat) (h : n < 2 ^ 64) :
    u64FromBytesLE (u64ToBytesLE n) = n := by
  simp only [u64FromBytesLE, u64ToBytesLE, List.take, List.foldr]
  omega

theorem u64FromBytesBE_u64ToBytesBE (n : Nat) (h : n < 2 ^ 64) :
    u64FromBytesBE (u64ToBytesBE n) = n := by
  simp only [u64FromBytesBE, u64ToBytesBE, List.take, List.foldl]
  omega

namespace CyclicRef

theorem store_read_write_eq (s : Store) (r : Nat) (v : ℤ) (h : r < s.length) :
    (s.write r v).read r = v := by
  unfold Store.read Store.write
  rw [List.getD_eq_getElem _ _ (by simpa using h)]
  exact List.getElem_set_self (by simpa using h)

theorem store_read_write_ne (s : Store) (r r' : Nat) (v : ℤ) (h : r ≠ r') :
    (s.write r v).read r' = s.read r' := by
  unfold Store.read Store.write
  by_cases h' : r' < s.length
  · rw [List.getD_eq_getElem _ _ (by simpa using h'),
      List.getD_eq_getElem _ _ (by simpa using h')]
    exact List.getElem_set_ne h (by simpa using h')
  · rw [List.getD_eq_default _ _ (by simpa using Nat.le_of_not_lt h'),
      List.getD_eq_default _ _ (by simpa using Nat.le_of_not_lt h')]

theorem store_read_append_self (s : Store) (v : ℤ) :
    Store.read (s ++ [v]) s.length = v := by
  unfold Store.read
  rw [List.getD_eq_getElem _ _ (by simp)]
  simp

theorem store_read_append_lt (s : Store) (v : ℤ) (r : Nat) (h : r < s.length) :
    Store.read (s ++ [v]) r = s.read r := by
  unfold Store.read
  rw [List.getD_eq_getElem _ _ (by simp; omega),
    List.getD_eq_getElem _ _ (by simpa using h)]
  exact List.getElem_append_left h

end CyclicRef

/-!  Claims.  -/

/-- C1: The Group membership predicate `Inside(v)` returns true if and only if
`1 <= v < p`; in particular, for the group with `p = 17` and `g = 7`,
`Inside(0) = false`, `Inside(1) = true`, `Inside(17) = false`,
`Inside(18) = false`, and `Inside(12) = true`. -/
theorem claim_C1_inside :
    (∀ (g : Cyclic.Group) (v : ℤ), g.Inside v = true ↔ 1 ≤ v ∧ v < (g.prime : ℤ)) ∧
    (Cyclic.NewGroup 17 7).Inside 0 = false ∧
    (Cyclic.NewGroup 17 7).Inside 1 = true ∧
    (Cyclic.NewGroup 17 7).Inside 17 = false ∧
    (Cyclic.NewGroup 17 7).Inside 18 = false ∧
    (Cyclic.NewGroup 17 7).Inside 12 = true := by
  refine ⟨fun g v => ?_, by decide, by decide, by decide, by decide, by decide⟩
  simp [Cyclic.Group.Inside]

/-- C3: For every pair of cyclic Ints `z` and `x`, if their group fingerprints
differ then `z.Cmp(x)` returns -2, a sentinel distinct from every valid
three-way comparison outcome (-1, 0, 1); if the fingerprints are equal,
`z.Cmp(x)` returns the three-way comparison of their values (which is always
one of -1, 0, 1). -/
theorem claim_C3_cmp (z x : Cyclic.Int) :
    (z.fingerprint ≠ x.fingerprint →
      z.Cmp x = -2 ∧ z.Cmp x ≠ -1 ∧ z.Cmp x ≠ 0 ∧ z.Cmp x ≠ 1) ∧
    (z.fingerprint = x.fingerprint → z.Cmp x = Large.cmp z.value x.value) ∧
    (Large.cmp z.value x.value = -1 ∨ Large.cmp z.value x.value = 0 ∨
      Large.cmp z.value x.value = 1) := by
  refine ⟨fun hne => ?_, fun heq => ?_, ?_⟩
  · rw [Cyclic.Int.Cmp, if_pos hne]
    refine ⟨rfl, by decide, by decide, by decide⟩
  · rw [Cyclic.Int.Cmp, if_neg (by simpa using heq)]
  · unfold Large.cmp
    split_ifs <;> simp

/-- C3 witness: a concrete cross-group pair compares to -2 and a concrete
same-group pair compares by value. -/
theorem claim_C3_cmp_witness :
    Cyclic.Int.Cmp ⟨1, 0⟩ ⟨2, 1⟩ = -2 ∧
    Cyclic.Int.Cmp ⟨1, 5⟩ ⟨2, 5⟩ = Large.cmp 1 2 :=
  ⟨((claim_C3_cmp ⟨1, 0⟩ ⟨2, 1⟩).1 (by decide)).1,
   (claim_C3_cmp ⟨1, 5⟩ ⟨2, 5⟩).2.1 rfl⟩

/-- C4: For every state of the random source that does not error,
`Group.Random(z)` stores into `z` a value that satisfies `Inside`
(`1 <= z < p`) and is never 0 and never 1.  (The range `[2, p-2]` drawn from
requires the group modulus to admit a non-trivial element, `4 ≤ p`.) -/
theorem claim_C4_random (p g n : Nat) (draw : Option Nat) (hp : 4 ≤ p)
    (hdraw : draw = some n) :
    ∃ z, (Cyclic.NewGroup p g).Random draw = some z ∧
      (Cyclic.NewGroup p g).Inside (z : ℤ) = true ∧ z ≠ 0 ∧ z ≠ 1 := by
  subst hdraw
  have hmod : n % (p - 3) < p - 3 := Nat.mod_lt _ (by omega)
  refine ⟨2 + n % (p - 3), rfl, ?_, by omega, by omega⟩
  simp only [Cyclic.Group.Inside, Bool.and_eq_true, decide_eq_true_eq]
  constructor
  · omega
  · show ((2 + n % ((Cyclic.NewGroup p g).prime - 3) : Nat) : ℤ) < ((Cyclic.NewGroup p g).prime : ℤ)
    have hpr : (Cyclic.NewGroup p g).prime = p := rfl
    rw [hpr]
    omega

/-- C4 witness: in the group with `p = 17`, a successful draw of 13 yields an
element inside the group that is neither 0 nor 1. -/
theorem claim_C4_random_witness :
    ∃ z, (Cyclic.NewGroup 17 7).Random (some 13) = some z ∧
      (Cyclic.NewGroup 17 7).Inside (z : ℤ) = true ∧ z ≠ 0 ∧ z ≠ 1 :=
  claim_C4_random 17 7 13 (some 13) (by decide) rfl

/-- C8: For every byte slice that is not valid JSON for the expected
`{Value, Fingerprint}` object, `Int.UnmarshalJSON` returns a non-nil error and
leaves both the receiver's value and its fingerprint exactly as they were
before the call. -/
theorem claim_C8_unmarshal (jsonParse : List Nat → Option Cyclic.intData)
    (z : Cyclic.Int) (b : List Nat) (hbad : jsonParse b = none) :
    (Cyclic.Int.UnmarshalJSON jsonParse z b).1 = some () ∧
    (Cyclic.Int.UnmarshalJSON jsonParse z b).2.value = z.value ∧
    (Cyclic.Int.UnmarshalJSON jsonParse z b).2.fingerprint = z.fingerprint := by
  simp [Cyclic.Int.UnmarshalJSON, hbad]

/-- C8 witness: a parse that rejects the payload `"abc"` (a JSON string where
an object is expected) produces an error and leaves the receiver `⟨42, 7⟩`
untouched. -/
theorem claim_C8_unmarshal_witness :
    (Cyclic.Int.UnmarshalJSON (fun _ => none) ⟨42, 7⟩ [34, 97, 98, 99, 34]).1 = some () ∧
    (Cyclic.Int.UnmarshalJSON (fun _ => none) ⟨42, 7⟩ [34, 97, 98, 99, 34]).2.value = (42 : ℤ) ∧
    (Cyclic.Int.UnmarshalJSON (fun _ => none) ⟨42, 7⟩ [34, 97, 98, 99, 34]).2.fingerprint = 7 :=
  claim_C8_unmarshal (fun _ => none) ⟨42, 7⟩ [34, 97, 98, 99, 34] rfl

/-- C2: For every Group constructed from prime `p` and generator `g`,
`GetFingerprint` returns the unsigned 64-bit integer obtained by hashing the
big-endian byte encoding of `p` concatenated with that of `g` with SHA-256,
truncating the digest to the fixed fingerprint size, and interpreting those
bytes big-endian; on the concrete scenario `p = 1000000010101111111`, `g = 5`
the fingerprint is 10844498364665878520 (independently computed from the real
SHA-256). -/
theorem claim_C2_fingerprint :
    (∀ p g : Nat, (Cyclic.NewGroup p g).GetFingerprint =
      u64FromBytesBE ((SHA256.sha256 (Large.bytes (p : ℤ) ++ Large.bytes (g : ℤ))).take
        Cyclic.GroupFingerprintSize)) ∧
    (Cyclic.NewGroup 1000000010101111111 5).GetFingerprint = 10844498364665878520 := by
  constructor
  · intro p g
    show Cyclic.fingerprintOf p g = _
    unfold Cyclic.fingerprintOf u64FromBytesBE natFromBytesBE Large.bytes
      Cyclic.GroupFingerprintSize
    rw [Int.natAbs_ofNat, Int.natAbs_ofNat, List.take_take]
    norm_num
  · decide

/-- Decoding the byte encoding of a non-negative `large.Int` value recovers
it. -/
theorem newIntFromBytes_bytes (v : ℤ) (hv : 0 ≤ v) :
    Large.newIntFromBytes (Large.bytes v) = v := by
  unfold Large.newIntFromBytes Large.bytes
  rw [natFromBytesBE_natToBytesBE, Int.natAbs_of_nonneg hv]

/-- C6: For every cyclic Int `z` (whose value, a group element, is
non-negative and whose fingerprint fits in a `uint64`), decoding the output
of `BinaryEncode(z)` with `BinaryDecode`, and decoding the output of
`GobEncode(z)` with `GobDecode`, each reproduce an Int whose value and group
fingerprint equal those of `z`. -/
theorem claim_C6_roundtrip (z w : Cyclic.Int) (hv : 0 ≤ z.value)
    (hf : z.fingerprint < 2 ^ 64) :
    (w.BinaryDecode z.BinaryEncode).1 = none ∧
    (w.BinaryDecode z.BinaryEncode).2.value = z.value ∧
    (w.BinaryDecode z.BinaryEncode).2.fingerprint = z.fingerprint ∧
    (Cyclic.Int.GobDecode z.GobEncode).value = z.value ∧
    (Cyclic.Int.GobDecode z.GobEncode).fingerprint = z.fingerprint := by
  have hlen : ¬ (z.BinaryEncode.length < 8) := by
    rw [Cyclic.Int.BinaryEncode, List.length_append, u64ToBytesLE_length]
    omega
  have htake : z.BinaryEncode.take 8 = u64ToBytesLE z.fingerprint := by
    rw [Cyclic.Int.BinaryEncode]
    have h8 : (8 : Nat) = (u64ToBytesLE z.fingerprint).length := (u64ToBytesLE_length _).symm
    rw [h8, List.take_left]
  have hdrop : z.BinaryEncode.drop 8 = z.Bytes := by
    rw [Cyclic.Int.BinaryEncode]
    have h8 : (8 : Nat) = (u64ToBytesLE z.fingerprint).length := (u64ToBytesLE_length _).symm
    rw [h8, List.drop_left]
  rw [Cyclic.Int.BinaryDecode, if_neg hlen, htake, hdrop]
  refine ⟨rfl, ?_, ?_, ?_, ?_⟩
  · exact newIntFromBytes_bytes z.value hv
  · exact u64FromBytesLE_u64ToBytesLE z.fingerprint hf
  · exact newIntFromBytes_bytes z.value hv
  · exact u64FromBytesBE_u64ToBytesBE z.fingerprint hf

/-- C6 witness: the round trips on the concrete Int of value 42 and
fingerprint 123456, decoded into receiver `⟨0, 0⟩`. -/
theorem claim_C6_roundtrip_witness :
    ((⟨0, 0⟩ : Cyclic.Int).BinaryDecode (⟨42, 123456⟩ : Cyclic.Int).BinaryEncode).1 = none ∧
    ((⟨0, 0⟩ : Cyclic.Int).BinaryDecode (⟨42, 123456⟩ : Cyclic.Int).BinaryEncode).2.value = (42 : ℤ) ∧
    ((⟨0, 0⟩ : Cyclic.Int).BinaryDecode (⟨42, 123456⟩ : Cyclic.Int).BinaryEncode).2.fingerprint = 123456 ∧
    (Cyclic.Int.GobDecode (⟨42, 123456⟩ : Cyclic.Int).GobEncode).value = (42 : ℤ) ∧
    (Cyclic.Int.GobDecode (⟨42, 123456⟩ : Cyclic.Int).GobEncode).fingerprint = 123456 :=
  claim_C6_roundtrip ⟨42, 123456⟩ ⟨0, 0⟩ (by decide) (by decide)

/-- C7: `BinaryEncode` produces exactly 8 fingerprint bytes followed by the
big-endian value bytes; `BinaryDecode` of a buffer shorter than 8 bytes
returns a length-mismatch error and leaves the receiver's value and
fingerprint unchanged; on a buffer of length at least 8 it succeeds, taking
the first 8 bytes as the fingerprint and the rest as the big-endian value. -/
theorem claim_C7_binary_format :
    (∀ z : Cyclic.Int,
      z.BinaryEncode = u64ToBytesLE z.fingerprint ++ Large.bytes z.value ∧
      (u64ToBytesLE z.fingerprint).length = 8) ∧
    (∀ (w : Cyclic.Int) (b : List Nat), b.length < 8 →
      (w.BinaryDecode b).1 = some ⟨b.length, 8⟩ ∧ (w.BinaryDecode b).2 = w) ∧
    (∀ (w : Cyclic.Int) (b : List Nat), 8 ≤ b.length →
      (w.BinaryDecode b).1 = none ∧
      (w.BinaryDecode b).2.fingerprint = u64FromBytesLE (b.take 8) ∧
      (w.BinaryDecode b).2.value = Large.newIntFromBytes (b.drop 8)) := by
  refine ⟨fun z => ⟨rfl, rfl⟩, fun w b hb => ?_, fun w b hb => ?_⟩
  · rw [Cyclic.Int.BinaryDecode, if_pos hb]
    exact ⟨rfl, rfl⟩
  · rw [Cyclic.Int.BinaryDecode, if_neg (by omega)]
    exact ⟨rfl, rfl, rfl⟩

/-- C7 witness: decoding the 3-byte buffer `[1, 2, 3]` into receiver `⟨7, 9⟩`
errors and leaves it unchanged; decoding a 9-byte buffer succeeds. -/
theorem claim_C7_binary_format_witness :
    ((⟨7, 9⟩ : Cyclic.Int).BinaryDecode [1, 2, 3]).1 = some ⟨3, 8⟩ ∧
    ((⟨7, 9⟩ : Cyclic.Int).BinaryDecode [1, 2, 3]).2 = (⟨7, 9⟩ : Cyclic.Int) ∧
    ((⟨7, 9⟩ : Cyclic.Int).BinaryDecode [1, 2, 3, 4, 5, 6, 7, 8, 255]).1 = none :=
  ⟨(claim_C7_binary_format.2.1 ⟨7, 9⟩ [1, 2, 3] (by decide)).1,
   (claim_C7_binary_format.2.1 ⟨7, 9⟩ [1, 2, 3] (by decide)).2,
   (claim_C7_binary_format.2.2 ⟨7, 9⟩ [1, 2, 3, 4, 5, 6, 7, 8, 255] (by decide)).1⟩

/-- C9: `IntBuffer.Get(i)` returns a view sharing storage with the buffer,
and `GetSubBuffer(begin, end)` shares backing storage with the parent: for
every in-range `i`, mutating the Int returned by `Get(i)` changes element `i`
of the buffer, and for every in-range `j`, a write through sub-buffer index
`j` is observable at parent index `begin + j`; both carry the parent's
fingerprint.  (`s` is the backing store; the buffer is well-formed in it.) -/
theorem claim_C9_buffer_sharing (s : CyclicRef.Store) (ib : CyclicRef.IntBuffer)
    (i j bg en : Nat) (v w : ℤ)
    (hwf : ib.base + ib.len ≤ s.length)
    (hi : i < ib.len) (hen : en ≤ ib.len) (hj : j < en - bg) :
    CyclicRef.IntBuffer.readAt (s.write (ib.Get i).ref v) ib i = v ∧
    CyclicRef.IntBuffer.readAt (s.write ((ib.GetSubBuffer bg en).Get j).ref w) ib (bg + j) = w ∧
    (ib.Get i).fingerprint = ib.fingerprint ∧
    (ib.GetSubBuffer bg en).fingerprint = ib.fingerprint := by
  refine ⟨?_, ?_, rfl, rfl⟩
  · show (s.write (ib.base + i) v).read (ib.base + i) = v
    exact CyclicRef.store_read_write_eq s (ib.base + i) v (by omega)
  · show (s.write (ib.base + bg + j) w).read (ib.base + (bg + j)) = w
    have hsame : ib.base + bg + j = ib.base + (bg + j) := by omega
    rw [hsame]
    exact CyclicRef.store_read_write_eq s (ib.base + (bg + j)) w (by omega)

/-- C9 witness: in a 5-cell store holding a 3-element buffer starting at cell
1, writing 5 through `Get 0` is seen at element 0, and writing 7 through
index 1 of the sub-buffer over `[1, 3)` is seen at parent element 2. -/
theorem claim_C9_buffer_sharing_witness :
    CyclicRef.IntBuffer.readAt
      (CyclicRef.Store.write [0, 0, 0, 0, 0] ((⟨1, 3, 9⟩ : CyclicRef.IntBuffer).Get 0).ref 5)
      ⟨1, 3, 9⟩ 0 = 5 ∧
    CyclicRef.IntBuffer.readAt
      (CyclicRef.Store.write [0, 0, 0, 0, 0]
        (((⟨1, 3, 9⟩ : CyclicRef.IntBuffer).GetSubBuffer 1 3).Get 1).ref 7)
      ⟨1, 3, 9⟩ (1 + 1) = 7 ∧
    ((⟨1, 3, 9⟩ : CyclicRef.IntBuffer).Get 0).fingerprint = 9 ∧
    ((⟨1, 3, 9⟩ : CyclicRef.IntBuffer).GetSubBuffer 1 3).fingerprint = 9 :=
  claim_C9_buffer_sharing [0, 0, 0, 0, 0] ⟨1, 3, 9⟩ 0 1 1 3 5 7
    (by decide) (by decide) (by decide) (by decide)

/-- C10: For every cyclic Int `z`, `GetLargeInt` returns a `large.Int` equal
in value to `z`'s internal value but sharing no storage with it: the fresh
cell is a different reference, and mutating the returned `large.Int`
afterwards leaves `z`'s value unchanged, so the group-membership status of
`z`'s value cannot be changed through the returned value.  (`z`'s fingerprint
field is not part of the store and is untouched by construction.) -/
theorem claim_C10_getLargeInt (s : CyclicRef.Store) (z : CyclicRef.Int)
    (hz : z.ref < s.length) :
    (CyclicRef.Int.GetLargeInt s z).1.read (CyclicRef.Int.GetLargeInt s z).2 = s.read z.ref ∧
    (CyclicRef.Int.GetLargeInt s z).2 ≠ z.ref ∧
    (∀ v : ℤ,
      (((CyclicRef.Int.GetLargeInt s z).1.write (CyclicRef.Int.GetLargeInt s z).2 v)).read z.ref
        = s.read z.ref) ∧
    (∀ (v : ℤ) (g : Cyclic.Group),
      g.Inside ((((CyclicRef.Int.GetLargeInt s z).1.write
          (CyclicRef.Int.GetLargeInt s z).2 v)).read z.ref)
        = g.Inside (s.read z.ref)) := by
  have hcopy : ∀ v : ℤ,
      ((CyclicRef.Int.GetLargeInt s z).1.write (CyclicRef.Int.GetLargeInt s z).2 v).read z.ref
        = s.read z.ref := by
    intro v
    show ((s ++ [s.read z.ref]).write s.length v).read z.ref = s.read z.ref
    rw [CyclicRef.store_read_write_ne _ _ _ _ (by omega)]
    exact CyclicRef.store_read_append_lt s _ z.ref hz
  refine ⟨?_, by show s.length ≠ z.ref; omega, hcopy, fun v g => by rw [hcopy v]⟩
  show (s ++ [s.read z.ref]).read s.length = s.read z.ref
  exact CyclicRef.store_read_append_self s _

/-- C10 witness: on the 1-cell store `[4]`, the copy of cell 0 is a fresh
cell holding 4; overwriting the copy with 99 leaves cell 0 at 4. -/
theorem claim_C10_getLargeInt_witness :
    (CyclicRef.Int.GetLargeInt [4] ⟨0, 3⟩).1.read (CyclicRef.Int.GetLargeInt [4] ⟨0, 3⟩).2
      = CyclicRef.Store.read [4] 0 ∧
    (CyclicRef.Int.GetLargeInt [4] ⟨0, 3⟩).2 ≠ 0 ∧
    (∀ v : ℤ,
      (((CyclicRef.Int.GetLargeInt [4] ⟨0, 3⟩).1.write
          (CyclicRef.Int.GetLargeInt [4] ⟨0, 3⟩).2 v)).read 0 = CyclicRef.Store.read [4] 0) ∧
    (∀ (v : ℤ) (g : Cyclic.Group),
      g.Inside ((((CyclicRef.Int.GetLargeInt [4] ⟨0, 3⟩).1.write
          (CyclicRef.Int.GetLargeInt [4] ⟨0, 3⟩).2 v)).read 0)
        = g.Inside (CyclicRef.Store.read [4] 0)) :=
  claim_C10_getLargeInt [4] ⟨0, 3⟩ (by decide)

/-- When `gcd(y, m) = 1` and `1 < m`, `ModInverse` finds an inverse of `y`
modulo `m`. -/
theorem ModInverse_eq_some (y m : Nat) (hm : 1 < m) (hco : Nat.gcd y m = 1) :
    ∃ d, Large.ModInverse y m = some d ∧ y * d % m = 1 := by
  obtain ⟨d0, hd0⟩ := Nat.exists_mul_emod_eq_one_of_coprime hco hm
  have hmm : d0 % m % m = d0 % m := Nat.mod_eq_of_lt (Nat.mod_lt _ (by omega))
  have hd1 : y * (d0 % m) % m = 1 := by
    rw [Nat.mul_mod, hmm, ← Nat.mul_mod, hd0]
  have h1m : 1 % m = 1 := Nat.mod_eq_of_lt hm
  unfold Large.ModInverse
  cases hfind : (List.range m).find? (fun d => y * d % m == 1 % m) with
  | none =>
    exfalso
    have hnone := List.find?_eq_none.mp hfind (d0 % m)
      (List.mem_range.mpr (Nat.mod_lt _ (by omega)))
    simp only [beq_iff_eq] at hnone
    exact hnone (by rw [h1m]; exact hd1)
  | some d =>
    refine ⟨d, rfl, ?_⟩
    have hp := List.find?_some hfind
    simp only [beq_iff_eq] at hp
    rwa [h1m] at hp

/-- Fermat inversion: for prime `p`, `1 ≤ a < p` and `y` coprime to `p - 1`,
raising `a^y mod p` to the inverse of `y` modulo `p - 1` recovers `a`. -/
theorem exp_root_eq (p a y : Nat) (hp : Nat.Prime p) (ha1 : 1 ≤ a) (hap : a < p)
    (hy : Nat.gcd y (p - 1) = 1) :
    (a ^ y % p) ^ (Large.ModInverse y (p - 1)).getD 0 % p = a := by
  by_cases hp2 : p = 2
  · subst hp2
    have ha : a = 1 := by omega
    subst ha
    simp
  · have h3 : 3 ≤ p := by have := hp.two_le; omega
    have hm : 1 < p - 1 := by omega
    obtain ⟨d, hdeq, hdprop⟩ := ModInverse_eq_some y (p - 1) hm hy
    rw [hdeq, Option.getD_some]
    have hk : y * d = (p - 1) * (y * d / (p - 1)) + 1 := by
      have h := Nat.div_add_mod (y * d) (p - 1)
      omega
    haveI hfact : Fact (Nat.Prime p) := ⟨hp⟩
    haveI : NeZero p := ⟨by omega⟩
    have hane : (a : ZMod p) ≠ 0 := by
      intro h0
      have hval := ZMod.val_cast_of_lt hap
      rw [h0, ZMod.val_zero] at hval
      omega
    have hz1 : (((a ^ y % p) ^ d % p : Nat) : ZMod p) = (a : ZMod p) ^ (y * d) := by
      rw [ZMod.natCast_mod, Nat.cast_pow, ZMod.natCast_mod, Nat.cast_pow, ← pow_mul]
    have hz2 : ((a : ZMod p)) ^ (y * d) = (a : ZMod p) := by
      rw [hk, pow_add, pow_mul, ZMod.pow_card_sub_one_eq_one hane, one_pow, pow_one, one_mul]
    have hfin := congrArg ZMod.val (hz1.trans hz2)
    rw [ZMod.val_cast_of_lt (Nat.mod_lt _ (by omega)), ZMod.val_cast_of_lt hap] at hfin
    exact hfin

/-- C5: For every prime `p`, generator `g`, element `a` in `[1, p-1]`, and
exponent `y` coprime to `p-1`, `RootCoprime` applied to `Exp(a, y, _)` and
`y` recovers `a`, and `RootCoprime` does not mutate its `x` or `y`
arguments. -/
theorem claim_C5_rootCoprime (p g a y : Nat) (hp : Nat.Prime p)
    (ha1 : 1 ≤ a) (hap : a < p) (hy : Nat.gcd y (p - 1) = 1) :
    (Cyclic.NewGroup p g).RootCoprime ((Cyclic.NewGroup p g).Exp a y) y = a ∧
    (∀ xi yi zi : Cyclic.Int,
      ((Cyclic.NewGroup p g).RootCoprimeCall xi yi zi).1 = xi ∧
      ((Cyclic.NewGroup p g).RootCoprimeCall xi yi zi).2.1 = yi) := by
  refine ⟨?_, fun xi yi zi => ⟨rfl, rfl⟩⟩
  show (a ^ y % p) ^ (Large.ModInverse y (p - 1)).getD 0 % p = a
  exact exp_root_eq p a y hp ha1 hap hy

/-- C5 witness: in the group with `p = 17`, taking `a = 5`, `y = 5`
(coprime to 16): `RootCoprime(Exp(5, 5), 5) = 5`, and the `x` argument of a
concrete `RootCoprime` call is returned unchanged. -/
theorem claim_C5_rootCoprime_witness :
    (Cyclic.NewGroup 17 29).RootCoprime ((Cyclic.NewGroup 17 29).Exp 5 5) 5 = 5 ∧
    ((Cyclic.NewGroup 17 29).RootCoprimeCall ⟨3, 1⟩ ⟨5, 1⟩ ⟨7, 1⟩).1 = ⟨3, 1⟩ :=
  ⟨(claim_C5_rootCoprime 17 29 5 5 (by norm_num) (by decide) (by decide) (by decide)).1,
   ((claim_C5_rootCoprime 17 29 5 5 (by norm_num) (by decide) (by decide)
      (by decide)).2 ⟨3, 1⟩ ⟨5, 1⟩ ⟨7, 1⟩).1⟩
